import Mathlib

/-!
# service-context-kit: a verification development

Shallow embedding of three source files of the repository

* `helper/paging.go`            (namespace `helper`)
* `plugins/flagenv/flagenv.go`  (namespace `flagenv`)
* `plugins/mongo-storage/mongo.go` (namespace `mongostorage`)

Conventions.  A Go `string` that holds valid UTF-8 is the list of its runes
(`List Char`); Go `int` is `Int` (with explicit wrap-around where the source does
arithmetic on it); a Go function that mutates through a pointer receiver becomes a
function from the old state to the new one.  Code of the Go standard library and of
the MongoDB driver that the sources call is taken as a parameter, or modelled next
to the call with a comment that says what was modelled.
-/

/-! ## helper/paging.go -/

namespace helper

/-- The struct `Paging` of `paging.go`: three Go `int` fields. -/
structure Paging where
  Page : Int
  Limit : Int
  Total : Int
  deriving DecidableEq, Repr

/-- The method `(p *Paging) Process()`: the two `if` statements in program order,
the receiver after the call being the result. -/
def Paging.Process (p : Paging) : Paging :=
  let p1 : Paging := if p.Page < 1 then { p with Page := 1 } else p
  if p1.Limit ≤ 0 then { p1 with Limit := 10 } else p1

end helper

/-! ## plugins/flagenv/flagenv.go -/

namespace flagenv

/-- The call `strings.Replace(s, old, new, -1)` as `ParseSet` uses it: `old` and
`new` are one-character strings, so every occurrence of the character `old` is
replaced by `new`. -/
def Replace (s : List Char) (old new : Char) : List Char :=
  s.map (fun c => if c = old then new else c)

/-- Go's `unicode.ToUpper`: below `MaxASCII` the letters `a`..`z` are moved to
`A`..`Z` and every other rune is returned as it is; above, the rune is looked up in
the Unicode case tables, which are the parameter `tbl`. -/
def unicodeToUpper (tbl : Char → Char) (r : Char) : Char :=
  if r.toNat ≤ 127 then
    if 'a' ≤ r ∧ r ≤ 'z' then Char.ofNat (r.toNat - 32) else r
  else tbl r

/-- Go's `strings.ToUpper` on a valid UTF-8 string: every rune is mapped by
`unicode.ToUpper` (the ASCII fast path of the library computes the same string). -/
def ToUpper (tbl : Char → Char) (s : List Char) : List Char :=
  s.map (unicodeToUpper tbl)

/-- What `ParseSet` takes from outside the repository: the Unicode upper-case table
behind `strings.ToUpper`, and the quoting `strconv.Quote` behind the verb `%q`. -/
structure Platform where
  upperTable : Char → Char
  quote : List Char → List Char

/-- A `flag.Value` in a program whose variables are in the state `S`: `get` reads the
variable behind the interface value (the option's value), and `Set` is the method
`Set(string) error` as a transformer of the whole state, yielding the new state and
whether the returned error is non-nil.  `Set` may write any part of the state, so
two flags can stand over one variable, and it may store something also when it
reports an error (the library's own `intValue.Set` does). -/
structure Value (S V : Type) where
  get : S → V
  Set : S → List Char → S × Bool

/-- A `flag.Flag`, with the two fields `ParseSet` reads. -/
structure Flag (S V : Type) where
  Name : List Char
  Value : Value S V

/-- A `flag.FlagSet`: the map `formal` of all defined flags, as the list of its
entries, and the key set of the map `actual` of the flags that were set.  Both maps
of a `FlagSet` are keyed by flag name and `actual` holds the same pointers as
`formal`, so a `*flag.Flag` of the set is identified by its name. -/
structure FlagSet (S V : Type) where
  formal : List (Flag S V)
  actual : List (List Char)

/-- The order `strings.Compare(a.Name, b.Name) <= 0` that `sortFlags` sorts by
(byte-wise on UTF-8, which is the order of the rune sequences). -/
def nameLE {S V : Type} (a b : Flag S V) : Prop := a.Name ≤ b.Name

instance nameLE_decidable {S V : Type} : DecidableRel (nameLE (S := S) (V := V)) :=
  fun a b => inferInstanceAs (Decidable (a.Name ≤ b.Name))

/-- The library's `sortFlags`: the flags of a map in lexicographic order of their
names.  The names of a map are distinct, so the sorted order does not depend on the
sorting algorithm; insertion sort stands for it. -/
def sortFlags {S V : Type} (flags : List (Flag S V)) : List (Flag S V) :=
  List.insertionSort nameLE flags

/-- The flags that `set.Visit` passes to its callback: the flags of `actual`, in
lexicographic order. -/
def Visit {S V : Type} (set : FlagSet S V) : List (Flag S V) :=
  sortFlags (set.formal.filter (fun f => decide (f.Name ∈ set.actual)))

/-- The flags that `set.VisitAll` passes to its callback: all of `formal`, in
lexicographic order. -/
def VisitAll {S V : Type} (set : FlagSet S V) : List (Flag S V) :=
  sortFlags set.formal

/-- The function `contains` of `flagenv.go`: a linear search for the pointer `f`. -/
def contains {S V : Type} (list : List (Flag S V)) (f : Flag S V) : Bool :=
  match list with
  | [] => false
  | i :: rest => if i.Name = f.Name then true else contains rest f

/-- Lines 36 to 42 of `ParseSet`: the name of the environment variable looked up
for the flag called `name`. -/
def envName (P : Platform) (pfx : List Char) (name : List Char) : List Char :=
  let name1 := Replace name '.' '_'
  let name2 := Replace name1 '-' '_'
  let name3 := if pfx ≠ [] then pfx ++ name2 else name2
  ToUpper P.upperTable name3

/-- The error built by
`fmt.Errorf("failed to set flag %q with value %q", f.Name, val)`: its message. -/
def Errorf (P : Platform) (name val : List Char) : List Char :=
  "failed to set flag ".toList ++ P.quote name ++ " with value ".toList ++ P.quote val

/-- The callback that `ParseSet` hands to `set.VisitAll`, applied to one flag.  It
works on the captured variable `err` and, through `f.Value.Set`, on the program
state; both are threaded as a pair.  `env` is `os.Getenv`, which yields the empty
string for a variable that is not set.  (The captured slice `all` is only appended
to and never read; it is left out.) -/
def visitFlag {S V : Type} (P : Platform) (env : List Char → List Char) (pfx : List Char)
    (explicit : List (Flag S V)) (st : Option (List Char) × S) (f : Flag S V) :
    Option (List Char) × S :=
  match st.1 with
  | some _ => st
  | none =>
    if !contains explicit f then
      let name := envName P pfx f.Name
      let val := env name
      if val ≠ [] then
        let r := f.Value.Set st.2 val
        if r.2 then (some (Errorf P f.Name val), r.1) else (none, r.1)
      else st
    else st

/-- The loop of `VisitAll` running the callback over the flags in order. -/
def visitFlags {S V : Type} (P : Platform) (env : List Char → List Char) (pfx : List Char)
    (explicit : List (Flag S V)) (st : Option (List Char) × S) (l : List (Flag S V)) :
    Option (List Char) × S :=
  l.foldl (visitFlag P env pfx explicit) st

/-- What a call of `ParseSet` leaves behind: the program state after the call, from
which every flag's value is read with `get`, and the returned error (`none` is
`nil`). -/
structure Outcome (S : Type) where
  state : S
  err : Option (List Char)

/-- The function `ParseSet(prefix, set)` of `flagenv.go`, run in the state `s`. -/
def ParseSet {S V : Type} (P : Platform) (env : List Char → List Char) (pfx : List Char)
    (set : FlagSet S V) (s : S) : Outcome S :=
  let explicit := Visit set
  let r := visitFlags P env pfx explicit (none, s) (VisitAll set)
  { state := r.2, err := r.1 }

/-- A flag that was not explicitly set (its name is not a key of `actual`) and whose
environment variable has a non-empty value. -/
def overridden {S V : Type} (P : Platform) (env : List Char → List Char) (pfx : List Char)
    (set : FlagSet S V) (f : Flag S V) : Bool :=
  decide (f.Name ∉ set.actual) && decide (env (envName P pfx f.Name) ≠ [])

/-- The text `val` converts to the type of the flag `f`: its `Set` reports no error
on it. -/
def converts {S V : Type} (f : Flag S V) (val : List Char) : Prop :=
  ∀ s, (f.Value.Set s val).2 = false

/-- The text `val` fails conversion to the type of the flag `f`: its `Set` reports
an error on it. -/
def rejects {S V : Type} (f : Flag S V) (val : List Char) : Prop :=
  ∀ s, (f.Value.Set s val).2 = true

/-- Setting the flag `g` never changes the value that the flag `f` reads. -/
def preserves {S V : Type} (g f : Flag S V) : Prop :=
  ∀ s val, f.Value.get (g.Value.Set s val).1 = f.Value.get s

/-- The flags `f` and `g` share no value cell: setting either leaves the value of
the other as it is. -/
def separate {S V : Type} (f g : Flag S V) : Prop :=
  preserves f g ∧ preserves g f

/-- The outcome of a number parser of package `strconv`: no error, `ErrSyntax` or
`ErrRange`. -/
inductive NumErr where
  | ok | ErrSyntax | ErrRange
  deriving DecidableEq, Repr

/-- The digit a byte stands for in `strconv.ParseUint`: `0`..`9`, and a letter of
either case counted from ten (`lower(c) - 'a' + 10`); no other byte is a digit. -/
def digitVal (c : Char) : Option Nat :=
  if '0' ≤ c ∧ c ≤ '9' then some (c.toNat - 48)
  else if 'a' ≤ c ∧ c ≤ 'z' then some (c.toNat - 97 + 10)
  else if 'A' ≤ c ∧ c ≤ 'Z' then some (c.toNat - 65 + 10)
  else none

/-- The digit loop of `strconv.ParseUint` called with base 0: an underscore is
skipped and remembered, a byte that is no digit of the base is a syntax error, and
a value that leaves 64 bits is a range error with the value `maxVal`.  The result is
the value, the error, and whether an underscore was seen. -/
def parseDigits (base cutoff maxVal : Nat) : List Char → Nat → Bool → Nat × NumErr × Bool
  | [], n, us => (n, NumErr.ok, us)
  | c :: cs, n, us =>
    if c = '_' then parseDigits base cutoff maxVal cs n true
    else
      match digitVal c with
      | none => (0, NumErr.ErrSyntax, us)
      | some d =>
        if base ≤ d then (0, NumErr.ErrSyntax, us)
        else if cutoff ≤ n then (maxVal, NumErr.ErrRange, us)
        else if maxVal < n * base + d then (maxVal, NumErr.ErrRange, us)
        else parseDigits base cutoff maxVal cs (n * base + d) us

/-- The loop of `strconv.underscoreOK`; `saw` is the last character class seen
(`'0'` a digit or base prefix, `'_'` an underscore, `'!'` anything else, `'^'` the
start). -/
def underscoreLoop (hex : Bool) : List Char → Char → Bool
  | [], saw => saw != '_'
  | c :: cs, saw =>
    if ('0' ≤ c ∧ c ≤ '9') ∨
        (hex = true ∧ (('a' ≤ c ∧ c ≤ 'f') ∨ ('A' ≤ c ∧ c ≤ 'F'))) then
      underscoreLoop hex cs '0'
    else if c = '_' then
      if saw != '0' then false else underscoreLoop hex cs '_'
    else if saw = '_' then false
    else underscoreLoop hex cs '!'

/-- The library's `strconv.underscoreOK`: underscores may stand only between digits
or between a base prefix and a digit. -/
def underscoreOK (s : List Char) : Bool :=
  let s1 := match s with
    | '-' :: t => t
    | '+' :: t => t
    | _ => s
  match s1 with
  | '0' :: c :: t =>
    if c = 'b' ∨ c = 'B' ∨ c = 'o' ∨ c = 'O' ∨ c = 'x' ∨ c = 'X' then
      underscoreLoop (decide (c = 'x' ∨ c = 'X')) t '0'
    else underscoreLoop false s1 '^'
  | _ => underscoreLoop false s1 '^'

/-- The base and the digits that `strconv.ParseUint` with base 0 reads from a
non-empty text: a leading `0` followed by `b`, `o` or `x` (in a text of at least
three bytes) selects base 2, 8 or 16, any other leading `0` selects base 8, and
base 10 applies otherwise. -/
def basePrefix (s : List Char) : Nat × List Char :=
  match s with
  | '0' :: c :: d :: t =>
    if c = 'b' ∨ c = 'B' then (2, d :: t)
    else if c = 'o' ∨ c = 'O' then (8, d :: t)
    else if c = 'x' ∨ c = 'X' then (16, d :: t)
    else (8, c :: d :: t)
  | '0' :: t => (8, t)
  | _ => (10, s)

/-- The library's `strconv.ParseUint(s, 0, 64)`: the value and the error. -/
def ParseUint (s : List Char) : Nat × NumErr :=
  match s with
  | [] => (0, NumErr.ErrSyntax)
  | _ :: _ =>
    let bp := basePrefix s
    let maxVal := 2 ^ 64 - 1
    let cutoff := maxVal / bp.1 + 1
    let r := parseDigits bp.1 cutoff maxVal bp.2 0 false
    match r.2.1 with
    | NumErr.ok => if r.2.2 && !underscoreOK s then (0, NumErr.ErrSyntax) else (r.1, NumErr.ok)
    | e => (r.1, e)

/-- The library's `strconv.ParseInt(s, 0, 64)`: the value, and whether the error is
non-nil.  A syntax error gives 0; a value out of the 64-bit range gives the nearest
bound and an error. -/
def ParseInt (s : List Char) : Int × Bool :=
  match s with
  | [] => (0, true)
  | c :: t =>
    let neg := decide (c = '-')
    let body := if c = '+' ∨ c = '-' then t else s
    let r := ParseUint body
    if r.2 = NumErr.ErrSyntax then (0, true)
    else if neg = false ∧ 2 ^ 63 ≤ r.1 then (2 ^ 63 - 1, true)
    else if neg = true ∧ 2 ^ 63 < r.1 then (-(2 ^ 63), true)
    else (if neg then -(Int.ofNat r.1) else Int.ofNat r.1, false)

/-- The flag that `flag.IntVar(&x, name, value, usage)` defines on a 64-bit platform,
the integer variables of the program being the state and `addr` the address of `x`.
Its value is `x`; its `Set` is the library's `intValue.Set`, which stores what
`strconv.ParseInt(s, 0, strconv.IntSize)` returns, also when that is an error.
(`IntVar` itself stores the default in `x`; that is part of the state the call of
`ParseSet` starts from.) -/
def intVar (name : List Char) (addr : Nat) : Flag (Nat → Int) Int :=
  { Name := name,
    Value :=
      { get := fun s => s addr,
        Set := fun s txt =>
          (fun a => if a = addr then (ParseInt txt).1 else s a, (ParseInt txt).2) } }

/-- A platform for examples over ASCII text: no rune above ASCII changes case, and
`%q` puts the text between double quotes (what `strconv.Quote` does when the text
has nothing to escape). -/
def asciiPlatform : Platform :=
  { upperTable := fun r => r, quote := fun s => '"' :: (s ++ ['"']) }

/-- An example registry: three integer flags over three variables, of which `port`
was set explicitly. -/
def sampleSet : FlagSet (Nat → Int) Int :=
  { formal := [intVar "workers".toList 0, intVar "max.con".toList 1,
               intVar "port".toList 2],
    actual := ["port".toList] }

/-- The variables of the example registry at the call: `workers` is 4, `max.con` is
50 and `port` is 8080. -/
def sampleState (a : Nat) : Int :=
  if a = 0 then 4 else if a = 1 then 50 else if a = 2 then 8080 else 0

/-- An example environment in which every value converts. -/
def goodEnv (n : List Char) : List Char :=
  if n = "APP_MAX_CON".toList then "75".toList
  else if n = "APP_PORT".toList then "9000".toList
  else []

/-- An example environment in which the value for `max.con` does not convert while
the one for `workers` does. -/
def badEnv (n : List Char) : List Char :=
  if n = "APP_MAX_CON".toList then "abc".toList
  else if n = "APP_WORKERS".toList then "9".toList
  else []

/-- A registry in which two flags stand over one variable, as after
`flag.IntVar(&x, "a", 0, "")` and `flag.IntVar(&x, "b", 0, "")`; `actual` is the
set of flags given on the command line. -/
def sharedSet (actual : List (List Char)) : FlagSet (Nat → Int) Int :=
  { formal := [intVar "a".toList 0, intVar "b".toList 0], actual := actual }

/-- An environment over the names of two variables `APP_A` and `APP_B`. -/
def envAB (a b : List Char) (n : List Char) : List Char :=
  if n = "APP_A".toList then a else if n = "APP_B".toList then b else []

end flagenv

/-! ## plugins/mongo-storage/mongo.go -/

namespace mongostorage

/-- The constant `time.Second`: a `time.Duration`, that is a count of nanoseconds. -/
def Second : Int := 1000000000

/-- The library method `(d Duration) Seconds() float64`:
`float64(d / Second) + float64(d % Second) / 1e9`, with Go's truncating integer
division.  The float is kept as a rational; at the one place the source calls it
(`time.Second.Seconds()`) every intermediate value is a small whole number, which
binary64 represents exactly. -/
def Seconds (d : Int) : ℚ :=
  ((Int.tdiv d Second : Int) : ℚ) + ((Int.tmod d Second : Int) : ℚ) / 1000000000

/-- The conversion `time.Duration(x)` of a `float64`: the fraction is discarded
(truncation towards zero). -/
def durationOfFloat (x : ℚ) : Int := Int.tdiv x.num (Int.ofNat x.den)

/-- The duration handed to `context.WithTimeout` in `Activate` (line 78):
`time.Duration(time.Second.Seconds()*5)`. -/
def activateTimeout : Int := durationOfFloat (Seconds Second * 5)

/-- The duration handed to `context.WithTimeout` in `CreateIndex` (line 108):
`time.Second*5`. -/
def createIndexTimeout : Int := Second * 5

/-- The struct `MongoOpt`. -/
structure MongoOpt where
  uri : List Char
  dbName : List Char
  maxConn : Int
  maxConnIdleTime : Int
  deriving DecidableEq, Repr

/-- The fields of the driver's `options.Credential` that the source reads or writes. -/
structure Credential where
  AuthSource : List Char
  Username : List Char
  Password : List Char
  deriving DecidableEq, Repr

/-- The struct `mongoStore`; `D` is the driver's `mongo.Database`, a nil pointer
being `none`.  The field `prefix` is spelled `pfx`; `logger` holds the identifier the
logger was obtained for. -/
structure mongoStore (D : Type) where
  id : List Char
  pfx : List Char
  logger : Option (List Char)
  client : Option D
  MongoOpt : MongoOpt
  Credential : Credential

/-- The constructor `NewMongoDB(id, prefix)`: `new(MongoOpt)` and
`new(options.Credential)` are zero values, `logger` and `client` are nil. -/
def NewMongoDB {D : Type} (id pfx : List Char) : mongoStore D :=
  { id := id, pfx := pfx, logger := none, client := none,
    MongoOpt := { uri := [], dbName := [], maxConn := 0, maxConnIdleTime := 0 },
    Credential := { AuthSource := [], Username := [], Password := [] } }

/-- The method `ID`. -/
def ID {D : Type} (m : mongoStore D) : List Char := m.id

/-- The variable a flag is bound to (`&m.uri`, `&m.dbName`, ...). -/
inductive Target where
  | uri | dbName | Username | Password | maxConn | maxConnIdleTime
  deriving DecidableEq, Repr

/-- The default value passed to `flag.StringVar` or `flag.IntVar`. -/
inductive Default where
  | str (s : List Char)
  | int (n : Int)
  deriving DecidableEq, Repr

/-- One call `flag.StringVar(p, name, value, usage)` or `flag.IntVar(...)`. -/
structure Registration where
  target : Target
  name : List Char
  dflt : Default
  usage : List Char
  deriving DecidableEq, Repr

/-- The call `fmt.Sprintf("%s" + rest, s)` with a string operand `s`. -/
def sprintfString (s rest : List Char) : List Char := s ++ rest

/-- The call `fmt.Sprintf("%s" + rest, n)` with an `int` operand: the verb `%s` does
not apply to an integer and `fmt` writes `%!s(int=N)` in its place, `N` being the
operand in decimal. -/
def sprintfInt (n : Int) (rest : List Char) : List Char :=
  "%!s(int=".toList ++ (toString n).toList ++ ")".toList ++ rest

/-- How a call ends: it returns a value, or it panics. -/
inductive Return (α : Type) where
  | returned (a : α)
  | panicked
  deriving DecidableEq, Repr

/-- The library's `flag.Var` on the flag set `flag.CommandLine` (Go 1.17 and later):
it panics when the name begins with `-`, when it contains `=`, and when a flag of
that name is already defined; otherwise the flag is added.  `none` is the panic. -/
def flagVar (set : List Registration) (r : Registration) : Option (List Registration) :=
  if r.name.head? = some '-' then none
  else if '=' ∈ r.name then none
  else if r.name ∈ set.map (fun x => x.name) then none
  else some (set ++ [r])

/-- The assignment `*p = value` that `flag.StringVar` and `flag.IntVar` make to the
variable the flag is bound to. -/
def storeDefault {D : Type} (m : mongoStore D) (t : Target) (d : Default) : mongoStore D :=
  match t, d with
  | Target.uri, Default.str s => { m with MongoOpt := { m.MongoOpt with uri := s } }
  | Target.dbName, Default.str s => { m with MongoOpt := { m.MongoOpt with dbName := s } }
  | Target.Username, Default.str s =>
    { m with Credential := { m.Credential with Username := s } }
  | Target.Password, Default.str s =>
    { m with Credential := { m.Credential with Password := s } }
  | Target.maxConn, Default.int n => { m with MongoOpt := { m.MongoOpt with maxConn := n } }
  | Target.maxConnIdleTime, Default.int n =>
    { m with MongoOpt := { m.MongoOpt with maxConnIdleTime := n } }
  | _, _ => m

/-- A run of `InitFlags`: the receiver, the flags defined in `flag.CommandLine`, and
how the run ended so far. -/
structure InitRun (D : Type) where
  store : mongoStore D
  registered : List Registration
  result : Return Unit

/-- One statement `flag.StringVar(p, name, value, usage)` or `flag.IntVar(...)` of
`InitFlags`: nothing happens after a panic; otherwise the arguments are evaluated
from the receiver as it is then, the default is stored in the variable, and
`flag.Var` defines the flag or panics. -/
def declare {D : Type} (run : InitRun D) (call : mongoStore D → Registration) : InitRun D :=
  match run.result with
  | Return.panicked => run
  | Return.returned _ =>
    let r := call run.store
    let m1 := storeDefault run.store r.target r.dflt
    match flagVar run.registered r with
    | none => { store := m1, registered := run.registered, result := Return.panicked }
    | some set1 => { store := m1, registered := set1, result := Return.returned () }

/-- The method `InitFlags`, run when `flag.CommandLine` holds the flags `set`: the
six statements in program order.  (The local variable `prefix`, to which `_` is
appended, is never read.) -/
def InitFlags {D : Type} (set : List Registration) (m : mongoStore D) : InitRun D :=
  let r0 : InitRun D := { store := m, registered := set, result := Return.returned () }
  let r1 := declare r0 (fun m =>
    { target := Target.uri, name := sprintfString m.pfx "_uri".toList,
      dflt := Default.str [], usage := "uri connection string".toList })
  let r2 := declare r1 (fun m =>
    { target := Target.dbName, name := sprintfString m.pfx "_db_name".toList,
      dflt := Default.str [], usage := "name of database".toList })
  let r3 := declare r2 (fun m =>
    { target := Target.Username, name := sprintfString m.pfx "_user_name".toList,
      dflt := Default.str [], usage := "user name use for connect to database".toList })
  let r4 := declare r3 (fun m =>
    { target := Target.Password, name := sprintfString m.pfx "_pwd".toList,
      dflt := Default.str [],
      usage := "password of username use for connect to database".toList })
  let r5 := declare r4 (fun m =>
    { target := Target.maxConn, name := sprintfInt m.MongoOpt.maxConn "_max_con".toList,
      dflt := Default.int 50, usage := "number of max connection to database".toList })
  declare r5 (fun m =>
    { target := Target.maxConnIdleTime,
      name := sprintfInt m.MongoOpt.maxConnIdleTime "_idle_time".toList,
      dflt := Default.int 1000, usage := "number of max connection idle time".toList })

/-- The method `isDisabled`. -/
def isDisabled {D : Type} (m : mongoStore D) : Bool := decide (m.MongoOpt.uri = [])

/-- The driver's `options.ClientOptions`, with the four settings `Activate` makes. -/
structure ClientOptions where
  uri : List Char
  maxConnecting : Nat
  maxConnIdleTime : Int
  auth : Credential
  deriving DecidableEq, Repr

/-- Wrap-around of Go's 64-bit `int`. -/
def wrapInt64 (x : Int) : Int := (x + 2 ^ 63) % 2 ^ 64 - 2 ^ 63

/-- Lines 67 to 76 of `Activate`: the client options built from the configuration.
`uint64(m.maxConn)` reduces modulo `2^64`; `m.maxConnIdleTime * int(time.Second)`
wraps as a 64-bit `int`. -/
def clientOptions {D : Type} (m : mongoStore D) : ClientOptions :=
  { uri := m.MongoOpt.uri,
    maxConnecting := (m.MongoOpt.maxConn % 2 ^ 64).toNat,
    maxConnIdleTime := wrapInt64 (m.MongoOpt.maxConnIdleTime * Second),
    auth := { AuthSource := m.MongoOpt.dbName, Username := m.Credential.Username,
              Password := m.Credential.Password } }

/-- The driver's `mongo.IndexModel` as `CreateIndex` builds it; `keys` stands for the
`bson.D` document. -/
structure IndexModel where
  Keys : List (List Char × Int)
  unique : Bool
  deriving DecidableEq, Repr

/-- The MongoDB driver, as far as the source calls it.  `C` is `mongo.Client`, `D` is
`mongo.Database`, an `error` is its message.  `Connect` is `mongo.Connect(ctx, opts)`
under a context with the given timeout: it yields either a client or an error (and
then a nil client).  `Ping` is `client.Ping(ctx, readpref.Primary())` on a non-nil
client, `none` meaning a nil error.  `CreateOne` is
`db.Collection(name).Indexes().CreateOne(ctx, model)`. -/
structure Driver (C D : Type) where
  Connect : Int → ClientOptions → Except (List Char) C
  Ping : Int → C → Option (List Char)
  Database : C → List Char → D
  CreateOne : Int → D → List Char → IndexModel → Option (List Char)

/-- What a call does that can be observed from outside: the calls into the driver,
with the timeout of the context passed, and the lines written to the logger. -/
inductive Event where
  | connect (timeout : Int) (opts : ClientOptions)
  | ping (timeout : Int)
  | createOne (timeout : Int) (collection : List Char) (model : IndexModel)
  | logConnectError (err : List Char)
  | logPingError (err : List Char)
  | logConnected (dbName uri : List Char)
  | logIndexError (collection err : List Char)
  deriving DecidableEq, Repr

/-- A run of a method: the receiver after it, the events in order, and how it ended. -/
structure Run (D α : Type) where
  store : mongoStore D
  events : List Event
  result : Return α

/-- The method `Activate`.  The returned `error` is `none` for nil.  When
`mongo.Connect` fails the source only logs; `client` is then nil and the call
`client.Ping` dereferences it.  (Assigning the logger does not touch the fields the
client options are built from.) -/
def Activate {C D : Type} (d : Driver C D) (m : mongoStore D) : Run D (Option (List Char)) :=
  let m1 : mongoStore D := { m with logger := some m.id }
  let clientOpts := clientOptions m
  match d.Connect activateTimeout clientOpts with
  | Except.error err =>
    { store := m1,
      events := [Event.connect activateTimeout clientOpts, Event.logConnectError err],
      result := Return.panicked }
  | Except.ok client =>
    match d.Ping activateTimeout client with
    | some err =>
      { store := m1,
        events := [Event.connect activateTimeout clientOpts, Event.ping activateTimeout,
                   Event.logPingError err],
        result := Return.returned (some err) }
    | none =>
      { store := { m1 with client := some (d.Database client m1.MongoOpt.dbName) },
        events := [Event.connect activateTimeout clientOpts, Event.ping activateTimeout,
                   Event.logConnected m1.MongoOpt.dbName m1.MongoOpt.uri],
        result := Return.returned none }

/-- The method `Stop`. -/
def Stop {D : Type} (m : mongoStore D) : Run D (Option (List Char)) :=
  { store := m, events := [], result := Return.returned none }

/-- The method `CreateIndex`.  With a nil `m.client` the call `m.client.Collection`
dereferences a nil pointer. -/
def CreateIndex {C D : Type} (d : Driver C D) (m : mongoStore D)
    (collectionName : List Char) (keys : List (List Char × Int)) (unique : Bool) :
    Run D Bool :=
  let mod : IndexModel := { Keys := keys, unique := unique }
  match m.client with
  | none => { store := m, events := [], result := Return.panicked }
  | some db =>
    match d.CreateOne createIndexTimeout db collectionName mod with
    | some err =>
      { store := m,
        events := [Event.createOne createIndexTimeout collectionName mod,
                   Event.logIndexError collectionName err],
        result := Return.returned false }
    | none =>
      { store := m, events := [Event.createOne createIndexTimeout collectionName mod],
        result := Return.returned true }

/-- A driver for examples.  A client is the URI it was opened for and a database the
pair of client and name.  `Connect` rejects the empty URI, which is no connection
string; `Ping` fails for the host `down`. -/
def sampleDriver : Driver (List Char) (List Char × List Char) :=
  { Connect := fun _ o =>
      if o.uri = [] then Except.error "error parsing uri".toList else Except.ok o.uri,
    Ping := fun _ c =>
      if c = "mongodb://down".toList then some "server selection timeout".toList else none,
    Database := fun c name => (c, name),
    CreateOne := fun _ _ _ _ => none }

/-- An adapter for examples: `NewMongoDB("main", "db")` with its options filled in,
the connection string being `uri`. -/
def sampleStore (uri : List Char) : mongoStore (List Char × List Char) :=
  { id := "main".toList, pfx := "db".toList, logger := none, client := none,
    MongoOpt := { uri := uri, dbName := "app".toList, maxConn := 50,
                  maxConnIdleTime := 1000 },
    Credential := { AuthSource := [], Username := "u".toList, Password := "p".toList } }

end mongostorage


/-! ## Properties of `helper/paging.go` -/

namespace helper

/-- C10. For every `Paging` value, `Process` keeps `Page` when it is at least 1 and
sets it to 1 otherwise, keeps `Limit` when it is positive and sets it to 10
otherwise, and never changes `Total`; hence the result has `Page ≥ 1` and
`Limit ≥ 1`, and processing a second time changes nothing. -/
theorem Paging.Process_spec (p : Paging) :
    (Paging.Process p).Page = (if 1 ≤ p.Page then p.Page else 1) ∧
    (Paging.Process p).Limit = (if 0 < p.Limit then p.Limit else 10) ∧
    (Paging.Process p).Total = p.Total ∧
    1 ≤ (Paging.Process p).Page ∧ 1 ≤ (Paging.Process p).Limit ∧
    Paging.Process (Paging.Process p) = Paging.Process p := by
  obtain ⟨page, limit, total⟩ := p
  by_cases hp : page < 1 <;> by_cases hl : limit ≤ 0 <;>
    simp [Paging.Process, hp, hl] <;> omega

end helper

/-! ## Properties of `plugins/flagenv/flagenv.go` -/

namespace flagenv

variable {S V : Type}

theorem nameLE_total : IsTotal (Flag S V) nameLE :=
  ⟨fun a b => le_total a.Name b.Name⟩

theorem nameLE_trans : IsTrans (Flag S V) nameLE :=
  ⟨fun _ _ _ h1 h2 => le_trans (α := List Char) h1 h2⟩

/-- The function `sortFlags` rearranges the flags and drops or adds none. -/
theorem sortFlags_perm (l : List (Flag S V)) : (sortFlags l).Perm l :=
  List.perm_insertionSort nameLE l

/-- The function `sortFlags` yields the flags in lexicographic order of their names. -/
theorem sortFlags_sorted (l : List (Flag S V)) :
    List.Sorted (fun a b => a.Name ≤ b.Name) (sortFlags l) :=
  @List.sorted_insertionSort _ nameLE _ nameLE_total nameLE_trans l

theorem contains_iff (l : List (Flag S V)) (f : Flag S V) :
    contains l f = true ↔ ∃ i ∈ l, i.Name = f.Name := by
  induction l with
  | nil => simp [contains]
  | cons a l ih =>
    by_cases h : a.Name = f.Name
    · simp [contains, h]
    · simp [contains, h, ih]

/-- For a flag of the set, `contains explicit f` in `ParseSet` says that the flag is
in the map `actual`. -/
theorem contains_Visit (set : FlagSet S V) (f : Flag S V) (hf : f ∈ set.formal) :
    contains (Visit set) f = true ↔ f.Name ∈ set.actual := by
  rw [contains_iff]
  constructor
  · rintro ⟨i, hi, hn⟩
    have hi2 := (sortFlags_perm _).mem_iff.mp hi
    rw [List.mem_filter] at hi2
    simpa [hn] using hi2.2
  · intro h
    refine ⟨f, (sortFlags_perm _).mem_iff.mpr ?_, rfl⟩
    rw [List.mem_filter]
    exact ⟨hf, by simpa using h⟩

theorem visitFlags_cons (P : Platform) (env : List Char → List Char) (pfx : List Char)
    (explicit : List (Flag S V)) (st : Option (List Char) × S) (f : Flag S V)
    (l : List (Flag S V)) :
    visitFlags P env pfx explicit st (f :: l) =
      visitFlags P env pfx explicit (visitFlag P env pfx explicit st f) l := rfl

theorem visitFlags_append (P : Platform) (env : List Char → List Char) (pfx : List Char)
    (explicit : List (Flag S V)) (st : Option (List Char) × S) (l1 l2 : List (Flag S V)) :
    visitFlags P env pfx explicit st (l1 ++ l2) =
      visitFlags P env pfx explicit (visitFlags P env pfx explicit st l1) l2 := by
  simp [visitFlags, List.foldl_append]

/-- Once an error is latched the callback does nothing more. -/
theorem visitFlags_latched (P : Platform) (env : List Char → List Char) (pfx : List Char)
    (explicit : List (Flag S V)) (e : List Char) (s : S) (l : List (Flag S V)) :
    visitFlags P env pfx explicit (some e, s) l = (some e, s) := by
  induction l with
  | nil => rfl
  | cons f rest ih =>
    rw [visitFlags_cons]
    exact ih

/-- The callback passes over an explicitly set flag and over a flag whose variable
is unset or empty. -/
theorem visitFlag_skip (P : Platform) (env : List Char → List Char) (pfx : List Char)
    (explicit : List (Flag S V)) (st : Option (List Char) × S) (f : Flag S V)
    (h : contains explicit f = true ∨ env (envName P pfx f.Name) = []) :
    visitFlag P env pfx explicit st f = st := by
  obtain ⟨err, s⟩ := st
  cases err with
  | some e => rfl
  | none =>
    rcases h with h | h
    · simp [visitFlag, h]
    · simp [visitFlag, h]

/-- The callback on a flag of the set that is overridden, while no error is latched. -/
theorem visitFlag_overridden (P : Platform) (env : List Char → List Char) (pfx : List Char)
    (set : FlagSet S V) (f : Flag S V) (hf : f ∈ set.formal)
    (ho : overridden P env pfx set f = true) (s : S) :
    visitFlag P env pfx (Visit set) (none, s) f =
      if (f.Value.Set s (env (envName P pfx f.Name))).2 = true then
        (some (Errorf P f.Name (env (envName P pfx f.Name))),
         (f.Value.Set s (env (envName P pfx f.Name))).1)
      else (none, (f.Value.Set s (env (envName P pfx f.Name))).1) := by
  simp only [overridden, Bool.and_eq_true, decide_eq_true_eq] at ho
  have hc : contains (Visit set) f = false := by
    cases hb : contains (Visit set) f with
    | false => rfl
    | true => exact absurd ((contains_Visit set f hf).mp hb) ho.1
  simp [visitFlag, hc, ho.2]

/-- The callback on a flag of the set that is not overridden. -/
theorem visitFlag_not_overridden (P : Platform) (env : List Char → List Char)
    (pfx : List Char) (set : FlagSet S V) (f : Flag S V) (hf : f ∈ set.formal)
    (ho : overridden P env pfx set f = false) (st : Option (List Char) × S) :
    visitFlag P env pfx (Visit set) st f = st := by
  apply visitFlag_skip
  by_cases ha : f.Name ∈ set.actual
  · exact Or.inl ((contains_Visit set f hf).mpr ha)
  · right
    simp only [overridden, Bool.and_eq_false_iff, decide_eq_false_iff_not, not_not] at ho
    rcases ho with ho | ho
    · exact absurd ho (by simpa using ha)
    · exact ho

/-- The state after the callback is the state before it, or what the flag's own
`Set` made of it. -/
theorem visitFlag_state (P : Platform) (env : List Char → List Char) (pfx : List Char)
    (explicit : List (Flag S V)) (st : Option (List Char) × S) (f : Flag S V) :
    (visitFlag P env pfx explicit st f).2 = st.2 ∨
    ∃ val, (visitFlag P env pfx explicit st f).2 = (f.Value.Set st.2 val).1 := by
  obtain ⟨err, s⟩ := st
  cases err with
  | some e => exact Or.inl rfl
  | none =>
    by_cases hc : contains explicit f = true
    · left; simp [visitFlag, hc]
    · by_cases he : env (envName P pfx f.Name) = []
      · left; simp [visitFlag, hc, he]
      · right
        refine ⟨env (envName P pfx f.Name), ?_⟩
        by_cases hs : (f.Value.Set s (env (envName P pfx f.Name))).2 = true
        · simp [visitFlag, hc, he, hs]
        · simp [visitFlag, hc, he, hs]

/-- Visiting flags whose `Set` does not touch the value of `f` leaves that value as
it is. -/
theorem visitFlags_preserves (P : Platform) (env : List Char → List Char) (pfx : List Char)
    (explicit : List (Flag S V)) (f : Flag S V) (l : List (Flag S V))
    (h : ∀ g ∈ l, preserves g f) (st : Option (List Char) × S) :
    f.Value.get (visitFlags P env pfx explicit st l).2 = f.Value.get st.2 := by
  induction l generalizing st with
  | nil => rfl
  | cons g rest ih =>
    rw [visitFlags_cons, ih (fun k hk => h k (List.mem_cons_of_mem _ hk))]
    rcases visitFlag_state P env pfx explicit st g with h1 | ⟨val, h1⟩
    · rw [h1]
    · rw [h1]
      exact h g (List.mem_cons_self _ _) st.2 val

/-- While every overridden flag converts, no error is latched. -/
theorem visitFlags_no_error (P : Platform) (env : List Char → List Char) (pfx : List Char)
    (set : FlagSet S V) (l : List (Flag S V)) (hl : ∀ f ∈ l, f ∈ set.formal)
    (h : ∀ f ∈ l, overridden P env pfx set f = true →
      converts f (env (envName P pfx f.Name))) (s : S) :
    (visitFlags P env pfx (Visit set) (none, s) l).1 = none := by
  induction l generalizing s with
  | nil => rfl
  | cons f rest ih =>
    have hf := hl f (List.mem_cons_self _ _)
    have ih2 := ih (fun g hg => hl g (List.mem_cons_of_mem _ hg))
      (fun g hg => h g (List.mem_cons_of_mem _ hg))
    rw [visitFlags_cons]
    cases ho : overridden P env pfx set f with
    | false =>
      rw [visitFlag_not_overridden P env pfx set f hf ho]
      exact ih2 s
    | true =>
      rw [visitFlag_overridden P env pfx set f hf ho,
        if_neg (by simp [h f (List.mem_cons_self _ _) ho s])]
      exact ih2 _

theorem separate_symm {f g : Flag S V} (h : separate f g) : separate g f :=
  ⟨h.2, h.1⟩

/-- In a registry without shared cells, a flag is separate from every flag visited
before it and from every flag visited after it. -/
theorem separate_of_split (set : FlagSet S V) (hsep : set.formal.Pairwise separate)
    (l1 l2 : List (Flag S V)) (f : Flag S V) (hsplit : VisitAll set = l1 ++ f :: l2) :
    (∀ g ∈ l1, separate g f) ∧ (∀ g ∈ l2, separate f g) ∧
    (∀ g ∈ l1, ∀ k ∈ l2, separate g k) := by
  have hp : (VisitAll set).Pairwise separate :=
    ((sortFlags_perm set.formal).pairwise_iff (fun h => separate_symm h)).mpr hsep
  rw [hsplit, List.pairwise_append, List.pairwise_cons] at hp
  exact ⟨fun g hg => hp.2.2 g hg f (List.mem_cons_self _ _), hp.2.1.1,
    fun g hg k hk => hp.2.2 g hg k (List.mem_cons_of_mem _ hk)⟩

theorem mem_formal_of_split (set : FlagSet S V) (l1 l2 : List (Flag S V)) (f : Flag S V)
    (hsplit : VisitAll set = l1 ++ f :: l2) :
    ∀ g ∈ l1 ++ f :: l2, g ∈ set.formal := by
  intro g hg
  rw [← hsplit] at hg
  exact (sortFlags_perm set.formal).mem_iff.mp hg

theorem intVar_converts (name : List Char) (addr : Nat) (txt : List Char)
    (h : (ParseInt txt).2 = false) : converts (intVar name addr) txt :=
  fun _ => h

theorem intVar_rejects (name : List Char) (addr : Nat) (txt : List Char)
    (h : (ParseInt txt).2 = true) : rejects (intVar name addr) txt :=
  fun _ => h

/-- Two integer flags over different variables share no cell. -/
theorem intVar_separate (n1 n2 : List Char) (a1 a2 : Nat) (h : a1 ≠ a2) :
    separate (intVar n1 a1) (intVar n2 a2) := by
  constructor
  · intro s val
    simp [intVar, Ne.symm h]
  · intro s val
    simp [intVar, h]

theorem sampleSet_separate : sampleSet.formal.Pairwise separate := by
  refine List.Pairwise.cons ?_ (List.Pairwise.cons ?_ (List.Pairwise.cons ?_ List.Pairwise.nil))
  · intro g hg
    simp only [List.mem_cons, List.not_mem_nil, or_false] at hg
    rcases hg with rfl | rfl
    · exact intVar_separate _ _ 0 1 (by decide)
    · exact intVar_separate _ _ 0 2 (by decide)
  · intro g hg
    simp only [List.mem_cons, List.not_mem_nil, or_false] at hg
    subst hg
    exact intVar_separate _ _ 1 2 (by decide)
  · intro g hg
    exact absurd hg (List.not_mem_nil _)

theorem ParseSet_state (P : Platform) (env : List Char → List Char) (pfx : List Char)
    (set : FlagSet S V) (s : S) :
    (ParseSet P env pfx set s).state =
      (visitFlags P env pfx (Visit set) (none, s) (VisitAll set)).2 := rfl

theorem ParseSet_err (P : Platform) (env : List Char → List Char) (pfx : List Char)
    (set : FlagSet S V) (s : S) :
    (ParseSet P env pfx set s).err =
      (visitFlags P env pfx (Visit set) (none, s) (VisitAll set)).1 := rfl

theorem envName_max_con (P : Platform) :
    envName P "APP_".toList (intVar "max.con".toList 0).Name = "APP_MAX_CON".toList := rfl

theorem ParseInt_75 : ParseInt "75".toList = (75, false) := by decide

theorem intVar_Set_75 :
    (intVar "max.con".toList 0).Value.Set (fun _ => 50) "75".toList =
      (fun a => if a = 0 then 75 else 50, false) := by
  show ((fun a => if a = 0 then (ParseInt "75".toList).1 else 50),
    (ParseInt "75".toList).2) = _
  rw [ParseInt_75]

theorem overridden_max_con (P : Platform) :
    overridden P (fun n => if n = "APP_MAX_CON".toList then "75".toList else [])
      "APP_".toList { formal := [intVar "max.con".toList 0], actual := [] }
      (intVar "max.con".toList 0) = true := by
  simp only [overridden, envName_max_con]
  decide

theorem VisitAll_max_con :
    VisitAll (S := Nat → Int) { formal := [intVar "max.con".toList 0], actual := [] } =
      [intVar "max.con".toList 0] := rfl

/-- The run of `ParseSet` with prefix `APP_` on one unset integer flag `max.con`,
at its default 50, under `APP_MAX_CON=75`. -/
theorem example_max_con (P : Platform) :
    (intVar "max.con".toList 0).Value.get
      (ParseSet P (fun n => if n = "APP_MAX_CON".toList then "75".toList else [])
        "APP_".toList { formal := [intVar "max.con".toList 0], actual := [] }
        (fun _ => 50)).state = 75 := by
  rw [ParseSet_state, VisitAll_max_con, visitFlags_cons,
    visitFlag_overridden P _ _ _ _ (List.mem_singleton.mpr rfl) (overridden_max_con P),
    envName_max_con]
  simp only [if_true, intVar_Set_75]
  rfl

/-- The claim C1 as it is worded fails on a registry in which two flags stand over
one variable: with `a` given on the command line as 1, `b` not given and `APP_B=9`,
the explicitly set flag `a` reads 9 after `ParseSet`. -/
theorem ParseSet_frame_shared :
    "a".toList ∈ (sharedSet ["a".toList]).actual ∧
    (intVar "a".toList 0).Value.get (fun _ => 1) = 1 ∧
    (intVar "a".toList 0).Value.get
      (ParseSet asciiPlatform (envAB [] "9".toList) "APP_".toList
        (sharedSet ["a".toList]) (fun _ => 1)).state = 9 := by
  decide

/-- C1, amended. For every prefix, environment and registry in which no two options
share a value cell, `ParseSet` leaves the value of every option of the registry that
was explicitly set, and of every option whose derived environment variable is unset
or empty, as it was before the call, whether or not an error is returned. -/
theorem ParseSet_frame (P : Platform) (env : List Char → List Char) (pfx : List Char)
    (set : FlagSet S V) (s : S) (hsep : set.formal.Pairwise separate)
    (f : Flag S V) (hf : f ∈ set.formal)
    (h : f.Name ∈ set.actual ∨ env (envName P pfx f.Name) = []) :
    f.Value.get (ParseSet P env pfx set s).state = f.Value.get s := by
  obtain ⟨l1, l2, hsplit⟩ :=
    List.append_of_mem ((sortFlags_perm set.formal).mem_iff.mpr hf)
  have hsp := separate_of_split set hsep l1 l2 f hsplit
  have hskip : ∀ st, visitFlag P env pfx (Visit set) st f = st := by
    intro st
    apply visitFlag_skip
    rcases h with h | h
    · exact Or.inl ((contains_Visit set f hf).mpr h)
    · exact Or.inr h
  have hv : VisitAll set = l1 ++ f :: l2 := hsplit
  rw [ParseSet_state, hv, visitFlags_append, visitFlags_cons, hskip,
    visitFlags_preserves P env pfx (Visit set) f l2 (fun g hg => (hsp.2.1 g hg).2),
    visitFlags_preserves P env pfx (Visit set) f l1 (fun g hg => (hsp.1 g hg).1)]

/-- Witness of C1 on the example registry, whose three flags stand over three
variables: `port` was set explicitly and keeps 8080 in spite of `APP_PORT=9000`. -/
theorem ParseSet_frame_witness :
    sampleSet.formal.Pairwise separate ∧
    (intVar "port".toList 2).Value.get
        (ParseSet asciiPlatform goodEnv "APP_".toList sampleSet sampleState).state =
      (intVar "port".toList 2).Value.get sampleState ∧
    (intVar "port".toList 2).Value.get sampleState = 8080 ∧
    goodEnv (envName asciiPlatform "APP_".toList "port".toList) = "9000".toList :=
  ⟨sampleSet_separate,
   ParseSet_frame asciiPlatform goodEnv "APP_".toList sampleSet sampleState
     sampleSet_separate (intVar "port".toList 2) (by simp [sampleSet])
     (Or.inl (by decide)),
   by decide, by decide⟩

/-- The claim C2 as it is worded fails on a registry in which two flags stand over
one variable: with neither given, `APP_A=1` and `APP_B=2`, both values convert and
`ParseSet` returns no error, and `a` then reads 2, not its own converted value 1. -/
theorem ParseSet_ok_shared :
    ParseInt "1".toList = (1, false) ∧ ParseInt "2".toList = (2, false) ∧
    (ParseSet asciiPlatform (envAB "1".toList "2".toList) "APP_".toList
        (sharedSet []) (fun _ => 0)).err = none ∧
    (intVar "a".toList 0).Value.get
      (ParseSet asciiPlatform (envAB "1".toList "2".toList) "APP_".toList
        (sharedSet []) (fun _ => 0)).state = 2 := by
  decide

/-- C2, amended. For every prefix, environment and registry in which no two options
share a value cell and every option that is not explicitly set and has a non-empty
environment value converts (none may apply at all), `ParseSet` returns no error and
each such option then holds the value its own conversion of the environment text
stored; with prefix `APP_`, an unset integer flag `max.con` (at its default 50) and
`APP_MAX_CON=75` the value afterwards is 75. -/
theorem ParseSet_ok (P : Platform) (env : List Char → List Char) (pfx : List Char)
    (set : FlagSet S V) (s : S) (hsep : set.formal.Pairwise separate)
    (h : ∀ f ∈ set.formal, overridden P env pfx set f = true →
      converts f (env (envName P pfx f.Name))) :
    (ParseSet P env pfx set s).err = none ∧
    (∀ f ∈ set.formal, overridden P env pfx set f = true →
      (∃ s1, f.Value.get (ParseSet P env pfx set s).state =
        f.Value.get (f.Value.Set s1 (env (envName P pfx f.Name))).1) ∧
      ∀ v0, (∀ s1, f.Value.get (f.Value.Set s1 (env (envName P pfx f.Name))).1 = v0) →
        f.Value.get (ParseSet P env pfx set s).state = v0) ∧
    (intVar "max.con".toList 0).Value.get
      (ParseSet P (fun n => if n = "APP_MAX_CON".toList then "75".toList else [])
        "APP_".toList { formal := [intVar "max.con".toList 0], actual := [] }
        (fun _ => 50)).state = 75 := by
  have hmem : ∀ f ∈ VisitAll set, f ∈ set.formal :=
    fun _ hf => (sortFlags_perm set.formal).mem_iff.mp hf
  have hex : ∀ f ∈ set.formal, overridden P env pfx set f = true →
      ∃ s1, f.Value.get (ParseSet P env pfx set s).state =
        f.Value.get (f.Value.Set s1 (env (envName P pfx f.Name))).1 := by
    intro f hf ho
    obtain ⟨l1, l2, hsplit⟩ :=
      List.append_of_mem ((sortFlags_perm set.formal).mem_iff.mpr hf)
    have hsp := separate_of_split set hsep l1 l2 f hsplit
    have hall := mem_formal_of_split set l1 l2 f hsplit
    have h1 : (visitFlags P env pfx (Visit set) (none, s) l1).1 = none :=
      visitFlags_no_error P env pfx set l1
        (fun g hg => hall g (List.mem_append_left _ hg))
        (fun g hg => h g (hall g (List.mem_append_left _ hg))) s
    refine ⟨(visitFlags P env pfx (Visit set) (none, s) l1).2, ?_⟩
    have hv : VisitAll set = l1 ++ f :: l2 := hsplit
    have hst : visitFlags P env pfx (Visit set) (none, s) l1 =
        (none, (visitFlags P env pfx (Visit set) (none, s) l1).2) :=
      Prod.ext h1 rfl
    rw [ParseSet_state, hv, visitFlags_append, visitFlags_cons,
      visitFlags_preserves P env pfx (Visit set) f l2 (fun g hg => (hsp.2.1 g hg).2),
      hst, visitFlag_overridden P env pfx set f hf ho,
      if_neg (by simp [h f hf ho _])]
  refine ⟨?_, ?_, example_max_con P⟩
  · exact visitFlags_no_error P env pfx set (VisitAll set) hmem
      (fun f hf => h f (hmem f hf)) s
  · intro f hf ho
    refine ⟨hex f hf ho, ?_⟩
    intro v0 hv0
    obtain ⟨s1, hs1⟩ := hex f hf ho
    rw [hs1]
    exact hv0 s1

/-- Witness of C2 on the example registry: `max.con` takes 75 from the environment,
`port` was set explicitly and keeps 8080 in spite of `APP_PORT=9000`, `workers` has
no variable and keeps 4. -/
theorem ParseSet_ok_witness :
    sampleSet.formal.Pairwise separate ∧
    (∀ f ∈ sampleSet.formal, overridden asciiPlatform goodEnv "APP_".toList sampleSet f = true →
      converts f (goodEnv (envName asciiPlatform "APP_".toList f.Name))) ∧
    (ParseSet asciiPlatform goodEnv "APP_".toList sampleSet sampleState).err = none ∧
    [0, 1, 2].map
        (ParseSet asciiPlatform goodEnv "APP_".toList sampleSet sampleState).state =
      [4, 75, 8080] :=
  ⟨sampleSet_separate,
   by
    intro f hf ho
    simp only [sampleSet, List.mem_cons, List.not_mem_nil, or_false] at hf
    rcases hf with rfl | rfl | rfl
    · exact absurd ho (by decide)
    · exact intVar_converts _ _ _ (by decide)
    · exact absurd ho (by decide),
   (ParseSet_ok asciiPlatform goodEnv "APP_".toList sampleSet sampleState
     sampleSet_separate (by
      intro f hf ho
      simp only [sampleSet, List.mem_cons, List.not_mem_nil, or_false] at hf
      rcases hf with rfl | rfl | rfl
      · exact absurd ho (by decide)
      · exact intVar_converts _ _ _ (by decide)
      · exact absurd ho (by decide))).1,
   by decide⟩

/-- The claim C3 as it is worded fails on a registry in which two flags stand over
one variable: with neither given and `APP_A=abc`, the conversion for `a` fails and
stores 0 in the shared variable, so `b`, which is visited after `a` and was 2 before
the call, reads 0 after it. -/
theorem ParseSet_latch_shared :
    (VisitAll (sharedSet [])).map (fun f => f.Name) = ["a".toList, "b".toList] ∧
    ParseInt "abc".toList = (0, true) ∧
    (ParseSet asciiPlatform (envAB "abc".toList []) "APP_".toList
        (sharedSet []) (fun _ => 2)).err =
      some "failed to set flag \"a\" with value \"abc\"".toList ∧
    (intVar "b".toList 0).Value.get (fun _ => 2) = 2 ∧
    (intVar "b".toList 0).Value.get
      (ParseSet asciiPlatform (envAB "abc".toList []) "APP_".toList
        (sharedSet []) (fun _ => 2)).state = 0 := by
  decide

/-- C3, amended. For every prefix, environment and registry in which no two options
share a value cell: the options are visited in lexicographic order of their names,
and when `f` is the first visited option that is not explicitly set and whose
non-empty environment value fails conversion (every such option before it
converting), `ParseSet` returns the error whose message carries the name of `f` and
its raw environment value, and every option visited after `f` holds its pre-call
value, even when its own environment value is non-empty and converts. -/
theorem ParseSet_latch (P : Platform) (env : List Char → List Char) (pfx : List Char)
    (set : FlagSet S V) (s : S) (hsep : set.formal.Pairwise separate)
    (pre post : List (Flag S V)) (f : Flag S V)
    (hsplit : VisitAll set = pre ++ f :: post)
    (hpre : ∀ g ∈ pre, overridden P env pfx set g = true →
      converts g (env (envName P pfx g.Name)))
    (hf : overridden P env pfx set f = true)
    (hrej : rejects f (env (envName P pfx f.Name))) :
    List.Sorted (fun a b => a.Name ≤ b.Name) (VisitAll set) ∧
    (ParseSet P env pfx set s).err =
      some ("failed to set flag ".toList ++ P.quote f.Name ++ " with value ".toList ++
        P.quote (env (envName P pfx f.Name))) ∧
    ∀ g ∈ post, g.Value.get (ParseSet P env pfx set s).state = g.Value.get s := by
  have hall := mem_formal_of_split set pre post f hsplit
  have hsp := separate_of_split set hsep pre post f hsplit
  have h1 : (visitFlags P env pfx (Visit set) (none, s) pre).1 = none :=
    visitFlags_no_error P env pfx set pre
      (fun g hg => hall g (List.mem_append_left _ hg)) hpre s
  have hst : visitFlags P env pfx (Visit set) (none, s) pre =
      (none, (visitFlags P env pfx (Visit set) (none, s) pre).2) :=
    Prod.ext h1 rfl
  have hrun : visitFlags P env pfx (Visit set) (none, s) (VisitAll set) =
      (some (Errorf P f.Name (env (envName P pfx f.Name))),
       (f.Value.Set (visitFlags P env pfx (Visit set) (none, s) pre).2
          (env (envName P pfx f.Name))).1) := by
    rw [hsplit, visitFlags_append, visitFlags_cons, hst,
      visitFlag_overridden P env pfx set f (hall f (by simp)) hf,
      if_pos (hrej _), visitFlags_latched]
  refine ⟨sortFlags_sorted set.formal, ?_, ?_⟩
  · rw [ParseSet_err, hrun]
    rfl
  · intro g hg
    rw [ParseSet_state, hrun]
    show g.Value.get (f.Value.Set _ _).1 = _
    rw [(hsp.2.1 g hg).1 _ _,
      visitFlags_preserves P env pfx (Visit set) g pre
        (fun k hk => (hsp.2.2 k hk g hg).1)]

/-- Witness of C3 on the example registry: `APP_MAX_CON=abc` does not convert and
`max.con` is the first flag visited; the error names it, and `workers`, visited
later, keeps 4 although `APP_WORKERS=9` converts. -/
theorem ParseSet_latch_witness :
    VisitAll sampleSet =
      [] ++ intVar "max.con".toList 1 :: [intVar "port".toList 2, intVar "workers".toList 0] ∧
    rejects (intVar "max.con".toList 1)
      (badEnv (envName asciiPlatform "APP_".toList "max.con".toList)) ∧
    (ParseSet asciiPlatform badEnv "APP_".toList sampleSet sampleState).err =
      some "failed to set flag \"max.con\" with value \"abc\"".toList ∧
    (intVar "workers".toList 0).Value.get
        (ParseSet asciiPlatform badEnv "APP_".toList sampleSet sampleState).state = 4 ∧
    badEnv (envName asciiPlatform "APP_".toList "workers".toList) = "9".toList :=
  ⟨rfl, intVar_rejects _ _ _ (by decide),
   ((ParseSet_latch asciiPlatform badEnv "APP_".toList sampleSet sampleState
      sampleSet_separate [] [intVar "port".toList 2, intVar "workers".toList 0]
      (intVar "max.con".toList 1) rfl (fun g hg => absurd hg (List.not_mem_nil g))
      (by decide) (intVar_rejects _ _ _ (by decide))).2.1).trans (by decide),
   ((ParseSet_latch asciiPlatform badEnv "APP_".toList sampleSet sampleState
      sampleSet_separate [] [intVar "port".toList 2, intVar "workers".toList 0]
      (intVar "max.con".toList 1) rfl (fun g hg => absurd hg (List.not_mem_nil g))
      (by decide) (intVar_rejects _ _ _ (by decide))).2.2
      (intVar "workers".toList 0) (by simp)).trans (by decide),
   by decide⟩

theorem ToUpper_append (tbl : Char → Char) (s t : List Char) :
    ToUpper tbl (s ++ t) = ToUpper tbl s ++ ToUpper tbl t := by
  simp [ToUpper]

/-- The claim C4 as it is worded fails for a prefix with lower-case letters: for the
prefix `app_` and the flag `max.con` the variable looked up is `APP_MAX_CON`, not the
prefix as given followed by the upper-cased name, `app_MAX_CON`. -/
theorem envName_lowercase_pfx :
    envName asciiPlatform "app_".toList "max.con".toList = "APP_MAX_CON".toList ∧
    "app_".toList ++
        ToUpper asciiPlatform.upperTable
          (Replace (Replace "max.con".toList '.' '_') '-' '_') = "app_MAX_CON".toList ∧
    envName asciiPlatform "app_".toList "max.con".toList ≠
      "app_".toList ++
        ToUpper asciiPlatform.upperTable
          (Replace (Replace "max.con".toList '.' '_') '-' '_') := by
  decide

/-- C4, amended. The variable looked up is the upper-casing of the whole string made
of the prefix followed by the flag name with every `.` and `-` replaced by `_`: the
prefix is upper-cased too and its own separators are kept. It is the prefix as given
followed by the upper-cased name exactly when upper-casing does not change the
prefix, and for prefix `APP_` and name `max.con` it is `APP_MAX_CON`. -/
theorem envName_spec (P : Platform) (pfx name : List Char) :
    envName P pfx name =
      ToUpper P.upperTable (pfx ++ (name.map (fun c => if c = '.' then '_' else c)).map
        (fun c => if c = '-' then '_' else c)) ∧
    envName P pfx name =
      ToUpper P.upperTable pfx ++
        ToUpper P.upperTable (Replace (Replace name '.' '_') '-' '_') ∧
    (envName P pfx name =
        pfx ++ ToUpper P.upperTable (Replace (Replace name '.' '_') '-' '_') ↔
      ToUpper P.upperTable pfx = pfx) ∧
    envName P "APP_".toList "max.con".toList = "APP_MAX_CON".toList := by
  have h1 : envName P pfx name =
      ToUpper P.upperTable (pfx ++ Replace (Replace name '.' '_') '-' '_') := by
    unfold envName
    by_cases hp : pfx = []
    · simp [hp]
    · simp [hp]
  refine ⟨h1, ?_, ?_, rfl⟩
  · rw [h1, ToUpper_append]
  · rw [h1, ToUpper_append, List.append_left_inj]

/-- Witness for C4: `APP_` is unchanged by upper-casing, so there the prefix stands
as given; `app_` is not. -/
theorem envName_spec_witness :
    envName asciiPlatform "APP_".toList "max-con.v2".toList =
      "APP_".toList ++ "MAX_CON_V2".toList ∧
    envName asciiPlatform "db.".toList "uri".toList = "DB.URI".toList :=
  ⟨((envName_spec asciiPlatform "APP_".toList "max-con.v2".toList).2.2.1.mpr
      (by decide)).trans (by decide),
   by decide⟩

end flagenv

/-! ## Properties of `plugins/mongo-storage/mongo.go` -/

namespace mongostorage

variable {C D : Type}

theorem activateTimeout_eq : activateTimeout = 5 := by
  norm_num [activateTimeout, Seconds, durationOfFloat, Second]

/-- The run of `Activate` when the driver's `Connect` fails. -/
theorem Activate_of_connect_error (d : Driver C D) (m : mongoStore D) (e : List Char)
    (h : d.Connect activateTimeout (clientOptions m) = Except.error e) :
    Activate d m =
      { store := { m with logger := some m.id },
        events := [Event.connect activateTimeout (clientOptions m),
                   Event.logConnectError e],
        result := Return.panicked } := by
  unfold Activate
  simp only [h]

/-- C5 (the code departs from it). For an adapter whose URI is empty, `Activate`
does not return early: its first act is a call of the driver's `Connect`, with client
options whose URI is empty. -/
theorem Activate_disabled_connects (d : Driver C D) (m : mongoStore D)
    (h : isDisabled m = true) :
    (clientOptions m).uri = [] ∧
    (Activate d m).events.head? =
      some (Event.connect activateTimeout (clientOptions m)) := by
  refine ⟨by simpa [isDisabled] using h, ?_⟩
  unfold Activate
  cases hc : d.Connect activateTimeout (clientOptions m) with
  | error e => simp only [hc, List.head?_cons]
  | ok c =>
    cases hp : d.Ping activateTimeout c <;> simp only [hc, hp, List.head?_cons]

/-- Witness of C5's theorem: the example adapter with an empty URI is disabled, yet
`Activate` calls `Connect`; the example driver rejects the empty URI and the run ends
in a panic instead of returning nil. -/
theorem Activate_disabled_connects_witness :
    isDisabled (sampleStore []) = true ∧
    (Activate sampleDriver (sampleStore [])).events.head? =
      some (Event.connect activateTimeout (clientOptions (sampleStore []))) ∧
    (Activate sampleDriver (sampleStore [])).result = Return.panicked :=
  ⟨by decide, (Activate_disabled_connects sampleDriver (sampleStore []) (by decide)).2,
   by decide⟩

/-- C6 (the code departs from it). When the driver's `Connect` fails with `e`,
`Activate` logs the error and goes on: it does not return `e`; the call of `Ping`
through the nil client ends the run in a panic. The handle is not changed. -/
theorem Activate_connect_error (d : Driver C D) (m : mongoStore D) (e : List Char)
    (h : d.Connect activateTimeout (clientOptions m) = Except.error e) :
    (Activate d m).result = Return.panicked ∧
    (Activate d m).result ≠ Return.returned (some e) ∧
    (Activate d m).events =
      [Event.connect activateTimeout (clientOptions m), Event.logConnectError e] ∧
    (Activate d m).store.client = m.client := by
  rw [Activate_of_connect_error d m e h]
  simp

/-- Witness of C6's theorem: the example driver rejects the empty URI. -/
theorem Activate_connect_error_witness :
    sampleDriver.Connect activateTimeout (clientOptions (sampleStore [])) =
      Except.error "error parsing uri".toList ∧
    (Activate sampleDriver (sampleStore [])).result ≠
      Return.returned (some "error parsing uri".toList) :=
  ⟨rfl,
   (Activate_connect_error sampleDriver (sampleStore []) "error parsing uri".toList
     rfl).2.1⟩

/-- C7. When the connection opens and the probe fails with `e`, `Activate` returns
exactly `e` and leaves the handle as it was; when the connection opens and the probe
succeeds, the handle is bound to the configured database name and `Activate` returns
no error; and the handle is changed in no other case. -/
theorem Activate_ping (d : Driver C D) (m : mongoStore D) :
    (∀ c e, d.Connect activateTimeout (clientOptions m) = Except.ok c →
      d.Ping activateTimeout c = some e →
      (Activate d m).result = Return.returned (some e) ∧
      (Activate d m).store.client = m.client) ∧
    (∀ c, d.Connect activateTimeout (clientOptions m) = Except.ok c →
      d.Ping activateTimeout c = none →
      (Activate d m).store.client = some (d.Database c m.MongoOpt.dbName) ∧
      (Activate d m).result = Return.returned none) ∧
    ((Activate d m).store.client ≠ m.client →
      ∃ c, d.Connect activateTimeout (clientOptions m) = Except.ok c ∧
        d.Ping activateTimeout c = none) := by
  refine ⟨?_, ?_, ?_⟩
  · intro c e hc hp
    unfold Activate
    simp [hc, hp]
  · intro c hc hp
    unfold Activate
    simp [hc, hp]
  · intro hne
    cases hc : d.Connect activateTimeout (clientOptions m) with
    | error e =>
      refine absurd ?_ hne
      rw [Activate_of_connect_error d m e hc]
    | ok c =>
      cases hp : d.Ping activateTimeout c with
      | none => exact ⟨c, rfl, hp⟩
      | some e =>
        refine absurd ?_ hne
        unfold Activate
        simp only [hc, hp]

/-- Witness of C7: against the host `down` the example driver connects and the probe
fails, `Activate` returns that error and the handle stays nil; against the host `up`
both succeed and the handle is the database `app`. -/
theorem Activate_ping_witness :
    ((Activate sampleDriver (sampleStore "mongodb://down".toList)).result =
        Return.returned (some "server selection timeout".toList) ∧
      (Activate sampleDriver (sampleStore "mongodb://down".toList)).store.client = none) ∧
    ((Activate sampleDriver (sampleStore "mongodb://up".toList)).store.client =
        some ("mongodb://up".toList, "app".toList) ∧
      (Activate sampleDriver (sampleStore "mongodb://up".toList)).result =
        Return.returned none) :=
  ⟨(Activate_ping sampleDriver (sampleStore "mongodb://down".toList)).1
      "mongodb://down".toList "server selection timeout".toList rfl rfl,
   (Activate_ping sampleDriver (sampleStore "mongodb://up".toList)).2.1
      "mongodb://up".toList rfl rfl⟩

/-- C8 (the code departs from it). The duration that `Activate` puts on its context,
`time.Duration(time.Second.Seconds()*5)`, is 5 nanoseconds and not 5 seconds; the
duration in `CreateIndex`, `time.Second*5`, is 5,000,000,000 nanoseconds, which is
5 seconds. -/
theorem timeout_durations :
    activateTimeout = 5 ∧ activateTimeout ≠ 5 * Second ∧
    createIndexTimeout = 5000000000 ∧ createIndexTimeout = 5 * Second := by
  refine ⟨activateTimeout_eq, ?_, by decide, by decide⟩
  rw [activateTimeout_eq]
  decide

theorem eq_mem_sprintfInt (n : Int) (rest : List Char) : '=' ∈ sprintfInt n rest := by
  simp [sprintfInt]

theorem declare_of_panicked (run : InitRun D) (call : mongoStore D → Registration)
    (h : run.result = Return.panicked) : declare run call = run := by
  unfold declare
  rw [h]

/-- A statement whose flag name contains `=` panics and defines nothing. -/
theorem declare_of_eq (run : InitRun D) (call : mongoStore D → Registration)
    (h : '=' ∈ (call run.store).name) :
    (declare run call).result = Return.panicked ∧
    (declare run call).registered = run.registered := by
  cases hr : run.result with
  | panicked => rw [declare_of_panicked run call hr]; exact ⟨hr, rfl⟩
  | returned u =>
    have hv : flagVar run.registered (call run.store) = none := by
      unfold flagVar
      split_ifs <;> rfl
    unfold declare
    simp only [hr, hv]
    exact ⟨trivial, trivial⟩

/-- A statement defines at most the flag it names. -/
theorem declare_mem (run : InitRun D) (call : mongoStore D → Registration)
    (r : Registration) (h : r ∈ (declare run call).registered) :
    r ∈ run.registered ∨ r = call run.store := by
  cases hr : run.result with
  | panicked => rw [declare_of_panicked run call hr] at h; exact Or.inl h
  | returned u =>
    unfold declare at h
    simp only [hr] at h
    cases hv : flagVar run.registered (call run.store) with
    | none => simp only [hv] at h; exact Or.inl h
    | some set1 =>
      simp only [hv] at h
      unfold flagVar at hv
      split_ifs at hv
      simp only [Option.some.injEq] at hv
      rw [← hv, List.mem_append, List.mem_singleton] at h
      exact h

/-- C9 (the code departs from it). `InitFlags` never registers six options: the
names of the two integer options are formatted from the integer fields instead of
the prefix and contain `=`, so the fifth statement panics in package `flag`, for
every adapter and whatever `flag.CommandLine` holds; no integer option is defined and
the sixth statement is not reached. For a new adapter with prefix `db1` and an empty
command line the four string options `db1_uri`, `db1_db_name`, `db1_user_name` and
`db1_pwd` are defined before the panic. -/
theorem InitFlags_panics (set : List Registration) (m : mongoStore D) :
    (InitFlags set m).result = Return.panicked ∧
    (∀ r ∈ (InitFlags set m).registered,
      r ∈ set ∨ (r.target ≠ Target.maxConn ∧ r.target ≠ Target.maxConnIdleTime)) ∧
    (InitFlags [] (NewMongoDB (D := Unit) "a".toList "db1".toList)).registered.map
        (fun r => r.name) =
      ["db1_uri".toList, "db1_db_name".toList, "db1_user_name".toList,
       "db1_pwd".toList] ∧
    sprintfInt (NewMongoDB (D := Unit) "a".toList "db1".toList).MongoOpt.maxConn
        "_max_con".toList = "%!s(int=0)_max_con".toList := by
  refine ⟨?_, ?_, by decide, by decide⟩
  · unfold InitFlags
    simp only
    rw [declare_of_panicked _ _ (declare_of_eq _ _ (eq_mem_sprintfInt _ _)).1]
    exact (declare_of_eq _ _ (eq_mem_sprintfInt _ _)).1
  · intro r hr
    unfold InitFlags at hr
    simp only at hr
    rw [declare_of_panicked _ _ (declare_of_eq _ _ (eq_mem_sprintfInt _ _)).1,
      (declare_of_eq _ _ (eq_mem_sprintfInt _ _)).2] at hr
    rcases declare_mem _ _ r hr with h4 | rfl
    · rcases declare_mem _ _ r h4 with h3 | rfl
      · rcases declare_mem _ _ r h3 with h2 | rfl
        · rcases declare_mem _ _ r h2 with h1 | rfl
          · exact Or.inl h1
          · exact Or.inr ⟨by simp, by simp⟩
        · exact Or.inr ⟨by simp, by simp⟩
      · exact Or.inr ⟨by simp, by simp⟩
    · exact Or.inr ⟨by simp, by simp⟩

end mongostorage
